import Mathlib

/-!
Verification of the funding-rate alignment core of the FundingRateArb
repository.

The embedding below translates, definition by definition, the aligner in
`src/app/api/funding/history/route.ts` (`buildFundingHistoryDataset` and the
`POST` handler), together with the start-time computation it performs.  JS
numbers are modelled as rationals (`ℚ`); every rational is finite, so the
`Number.isFinite` guards of the source, which can only fail on non-finite
doubles, are identically true in the model and noted where they occur.
Timestamps are integers (milliseconds).  JS `Array.prototype.sort` is stable
(ES2019), matching `List.mergeSort`.
-/

namespace FundingArb

/-- `MS_PER_HOUR = 60 * 60 * 1000` from route.ts. -/
def MS_PER_HOUR : Int := 60 * 60 * 1000

/-- `MAX_HYPER_FUNDING_POINTS = 500` from route.ts. -/
def MAX_HYPER_FUNDING_POINTS : Int := 500

/-- `MAX_HYPER_LOOKBACK_MS = MAX_HYPER_FUNDING_POINTS * MS_PER_HOUR`. -/
def MAX_HYPER_LOOKBACK_MS : Int := MAX_HYPER_FUNDING_POINTS * MS_PER_HOUR

/-- `DEFAULT_BINANCE_FUNDING_PERIOD_HOURS = 8` from route.ts. -/
def DEFAULT_BINANCE_FUNDING_PERIOD_HOURS : ℚ := 8

/-- `normalizeTimestampToHour(value) = Math.floor(value / MS_PER_HOUR) * MS_PER_HOUR`;
`Math.floor` of a real quotient is floored integer division (`Int.fdiv`). -/
def normalizeTimestampToHour (value : Int) : Int :=
  (Int.fdiv value MS_PER_HOUR) * MS_PER_HOUR

/-- A raw `{ time, rate }` sample as produced by the fetch helpers
(hour-bucketed time, finite parsed rate). -/
structure RawPoint where
  time : Int
  rate : ℚ
deriving DecidableEq

/-- The `FundingHistoryPoint` record of `src/types/funding.ts`. -/
structure FundingHistoryPoint where
  time : Int
  hyperliquid : Option ℚ
  binance : Option ℚ
  arbitrage : Option ℚ
deriving DecidableEq

/-- The comparator `(a, b) => a.time - b.time` used on raw samples. -/
def timeLe (a b : RawPoint) : Bool := a.time ≤ b.time

/-- The comparator `(a, b) => a.time - b.time` used on aligned points. -/
def pointTimeLe (a b : FundingHistoryPoint) : Bool := a.time ≤ b.time

/-- `[...history].sort((a, b) => a.time - b.time)` (stable sort by time). -/
def sortByTime (l : List RawPoint) : List RawPoint := l.mergeSort timeLe

/-- `.sort((a, b) => a.time - b.time)` on aligned points. -/
def sortPoints (l : List FundingHistoryPoint) : List FundingHistoryPoint :=
  l.mergeSort pointTimeLe

/-- Lines 99–102 of route.ts:
`desiredStart = now - Math.max(days, 1) * 24 * MS_PER_HOUR`,
`latestAllowedStart = now - MAX_HYPER_LOOKBACK_MS`,
`startTime = Math.max(desiredStart, latestAllowedStart)`. -/
def computeStartTime (now days : ℚ) : ℚ :=
  let desiredStart := now - max days 1 * 24 * (MS_PER_HOUR : ℚ)
  let latestAllowedStart := now - (MAX_HYPER_LOOKBACK_MS : ℚ)
  max desiredStart latestAllowedStart

/-- The inner `while` loop of `buildFundingHistoryDataset` (lines 138–147):
advance the secondary pointer past every sample with `time <= t`, updating
the carried hourly value to `(rate / intervalHours) * 100` of each consumed
sample.  The source's `Number.isFinite(hourly)` guard always holds over `ℚ`
(`intervalHours ≥ 1`, so the division is by a nonzero finite number). -/
def advanceSecondary (intervalHours : ℚ) (t : Int) :
    List RawPoint → Option ℚ → List RawPoint × Option ℚ
  | [], carry => ([], carry)
  | s :: rest, carry =>
      if s.time ≤ t then
        advanceSecondary intervalHours t rest (some (s.rate / intervalHours * 100))
      else (s :: rest, carry)

/-- The `sortedHyper.forEach` loop of `buildFundingHistoryDataset`
(lines 137–159): one output point per primary sample, carrying the
forward-filled secondary hourly value. -/
def mergeLoop (intervalHours : ℚ) :
    List RawPoint → List RawPoint → Option ℚ → List FundingHistoryPoint
  | [], _, _ => []
  | p :: ps, sec, carry =>
      let adv := advanceSecondary intervalHours p.time sec carry
      let hyperValue := p.rate * 100
      { time := p.time
        hyperliquid := some hyperValue
        binance := adv.2
        arbitrage := adv.2.map (fun b => b - hyperValue) } ::
        mergeLoop intervalHours ps adv.1 adv.2

/-- The normalized secondary period: `Math.max(x ?? DEFAULT, 1)` (route.ts
lines 117–120, named `intervalHours` there). -/
def intervalHoursOf (p : Option ℚ) : ℚ :=
  max (p.getD DEFAULT_BINANCE_FUNDING_PERIOD_HOURS) 1

/-- `buildFundingHistoryDataset` of route.ts (lines 93–162), taking the two
already-fetched, hour-bucketed, finite-filtered series as inputs (the
network fetches are external collaborators).  The thrown error carries the
source's message and plays the spec's `NoDataError` role. -/
def buildFundingHistoryDataset (hyperHistory binanceHistory : List RawPoint)
    (binanceFundingPeriodHours : Option ℚ) :
    Except String (List FundingHistoryPoint) :=
  if hyperHistory.length = 0 ∧ binanceHistory.length = 0 then
    Except.error "暂无可用的资金费率历史数据"
  else
    let sortedHyper := sortByTime hyperHistory
    let sortedBinance := sortByTime binanceHistory
    let intervalHours := intervalHoursOf binanceFundingPeriodHours
    if sortedHyper.length = 0 then
      Except.ok (sortPoints (sortedBinance.map (fun s =>
        { time := s.time
          hyperliquid := none
          binance := some (s.rate / intervalHours * 100)
          arbitrage := none })))
    else
      Except.ok (mergeLoop intervalHours sortedHyper sortedBinance none)

/-- The most recent secondary sample whose time is `<= t`: for a sorted
series, the last element of the `time ≤ t` prefix. -/
def lastLE (sec : List RawPoint) (t : Int) : Option RawPoint :=
  (sec.filter (fun s => s.time ≤ t)).getLast?

/-- The request payload of the POST handler.  A field whose JSON value is
absent or not of the expected type is modelled as `none`, matching the
source's `typeof` guards. -/
structure Payload where
  symbol : Option String
  binanceSymbol : Option String
  days : Option ℚ
  binanceFundingPeriodHours : Option ℚ

/-- The observable part of a `NextResponse.json` reply: HTTP status plus the
`error` / `dataset` body fields. -/
structure PostResponse where
  status : Nat
  error : Option String
  dataset : Option (List FundingHistoryPoint)
deriving DecidableEq

/-- The `POST` handler of route.ts (lines 164–213).  `body = none` models a
request whose `request.json()` throws (invalid JSON).  The two series
arguments stand for what the external fetches would return; when
`binanceSymbol` is falsy the source never fetches Binance and uses `[]`. -/
def handlePOST (body : Option Payload)
    (hyperFetched binanceFetched : List RawPoint) : PostResponse :=
  match body with
  | none => { status := 400, error := some "Invalid JSON payload", dataset := none }
  | some payload =>
      let symbol := payload.symbol.getD ""
      if symbol = "" then
        { status := 400, error := some "Symbol is required", dataset := none }
      else
        let binanceSymbol : Option String :=
          match payload.binanceSymbol with
          | some s => if s = "" then none else some s
          | none => none
        let binanceHistory := if binanceSymbol.isSome then binanceFetched else []
        match buildFundingHistoryDataset hyperFetched binanceHistory
            payload.binanceFundingPeriodHours with
        | Except.ok dataset =>
            { status := 200, error := none, dataset := some dataset }
        | Except.error e =>
            { status := 500, error := some e, dataset := none }

/-- Modelled from the spec: the repository ships no viewport-controller
source under `src/` (the spec's ViewportController §4.2 describes it), so
`setDomain` is taken verbatim from the spec's words: normalize so
`start <= end`; `requestedSpan = max(end - start, min(MinWindow, totalSpan))`;
if `requestedSpan >= totalSpan` return full bounds; else keep the requested
start, pulling it back if the window would overflow `maxBound` and forward
if it would underflow `minBound`. -/
def setDomain (minBound maxBound minWindow a b : ℚ) : ℚ × ℚ :=
  let start := min a b
  let stop := max a b
  let totalSpan := maxBound - minBound
  let requestedSpan := max (stop - start) (min minWindow totalSpan)
  if totalSpan ≤ requestedSpan then (minBound, maxBound)
  else
    let s :=
      if maxBound < start + requestedSpan then maxBound - requestedSpan
      else if start < minBound then minBound
      else start
    (s, s + requestedSpan)

/-- The spec's strictly-increasing-time invariant on an aligned series. -/
def strictlyIncreasingTimes (l : List FundingHistoryPoint) : Prop :=
  l.Pairwise (fun a b => a.time < b.time)

instance (l : List FundingHistoryPoint) : Decidable (strictlyIncreasingTimes l) :=
  inferInstanceAs (Decidable (l.Pairwise _))

section Lemmas

theorem sortByTime_of_sorted {l : List RawPoint}
    (h : l.Pairwise (fun a b => a.time ≤ b.time)) : sortByTime l = l :=
  List.mergeSort_of_sorted (h.imp (fun hab => by simpa [timeLe] using hab))

theorem mem_sortByTime {x : RawPoint} {l : List RawPoint} :
    x ∈ sortByTime l ↔ x ∈ l :=
  List.mem_mergeSort

theorem length_sortByTime (l : List RawPoint) :
    (sortByTime l).length = l.length :=
  List.length_mergeSort l

theorem advanceSecondary_fst (ih : ℚ) (t : Int) :
    ∀ (sec : List RawPoint) (carry : Option ℚ),
      (advanceSecondary ih t sec carry).1 =
        sec.dropWhile (fun s => decide (s.time ≤ t))
  | [], _ => rfl
  | s :: rest, carry => by
      by_cases hs : s.time ≤ t
      · simp [advanceSecondary, List.dropWhile, hs, advanceSecondary_fst ih t rest]
      · simp [advanceSecondary, List.dropWhile, hs]

theorem advanceSecondary_snd_origin {ih : ℚ} {t : Int} :
    ∀ {sec : List RawPoint} {carry : Option ℚ} {v : ℚ},
      (advanceSecondary ih t sec carry).2 = some v →
      carry = some v ∨ ∃ s ∈ sec, v = s.rate / ih * 100
  | [], _, _, hv => Or.inl hv
  | s :: rest, carry, v, hv => by
      by_cases hs : s.time ≤ t
      · rw [advanceSecondary, if_pos hs] at hv
        rcases advanceSecondary_snd_origin hv with h | ⟨s', hs', rfl⟩
        · exact Or.inr ⟨s, List.mem_cons_self .., (Option.some_inj.mp h).symm⟩
        · exact Or.inr ⟨s', List.mem_cons_of_mem _ hs', rfl⟩
      · rw [advanceSecondary, if_neg hs] at hv
        exact Or.inl hv

theorem mergeLoop_times (ih : ℚ) :
    ∀ (ps sec : List RawPoint) (carry : Option ℚ),
      (mergeLoop ih ps sec carry).map (fun pt => pt.time) =
        ps.map (fun s => s.time)
  | [], _, _ => rfl
  | _ :: ps, sec, carry => by
      simp [mergeLoop, mergeLoop_times ih ps]

theorem mergeLoop_shape {ih : ℚ} :
    ∀ {ps sec : List RawPoint} {carry : Option ℚ} {pt : FundingHistoryPoint},
      pt ∈ mergeLoop ih ps sec carry →
      ∃ s ∈ ps, pt.time = s.time ∧ pt.hyperliquid = some (s.rate * 100) ∧
        pt.arbitrage = pt.binance.map (fun v => v - s.rate * 100)
  | [], _, _, _, hpt => absurd hpt (List.not_mem_nil _)
  | p :: ps, sec, carry, pt, hpt => by
      rw [mergeLoop] at hpt
      rcases List.mem_cons.mp hpt with rfl | hpt
      · exact ⟨p, List.mem_cons_self .., rfl, rfl, rfl⟩
      · obtain ⟨s, hs, h⟩ := mergeLoop_shape hpt
        exact ⟨s, List.mem_cons_of_mem _ hs, h⟩

theorem getLast?_cons_or {α : Type} (a : α) (l : List α) :
    (a :: l).getLast? = l.getLast?.or (some a) := by
  have h : ([a] ++ l).getLast? = l.getLast?.or ([a].getLast?) :=
    List.getLast?_append
  simpa using h

theorem lastLE_nil {t : Int} : lastLE [] t = none := rfl

theorem lastLE_cons_of_le {s : RawPoint} {rest : List RawPoint} {t : Int}
    (hs : s.time ≤ t) {β : Type} (carry : β) (f : RawPoint → β) :
    (lastLE (s :: rest) t).elim carry f = (lastLE rest t).elim (f s) f := by
  unfold lastLE
  rw [List.filter_cons, if_pos (by simpa using hs), getLast?_cons_or]
  cases (rest.filter (fun x => decide (x.time ≤ t))).getLast? <;> simp

theorem lastLE_cons_of_not_le {s : RawPoint} {rest : List RawPoint} {t : Int}
    (hs : ¬ s.time ≤ t) (hall : ∀ x ∈ rest, s.time ≤ x.time) :
    lastLE (s :: rest) t = none := by
  unfold lastLE
  rw [List.filter_cons, if_neg (by simpa using hs)]
  have : rest.filter (fun x => decide (x.time ≤ t)) = [] :=
    List.filter_eq_nil_iff.mpr (fun x hx => by
      simpa using fun hxt => hs (le_trans (hall x hx) hxt))
  rw [this]
  rfl

theorem advanceSecondary_snd (ih : ℚ) (t : Int) :
    ∀ {sec : List RawPoint} (carry : Option ℚ),
      sec.Pairwise (fun a b => a.time ≤ b.time) →
      (advanceSecondary ih t sec carry).2 =
        (lastLE sec t).elim carry (fun s => some (s.rate / ih * 100))
  | [], carry, _ => by simp [advanceSecondary, lastLE]
  | s :: rest, carry, h => by
      rcases List.pairwise_cons.mp h with ⟨hall, hrest⟩
      by_cases hs : s.time ≤ t
      · rw [advanceSecondary, if_pos hs,
          advanceSecondary_snd ih t _ hrest, lastLE_cons_of_le hs]
      · rw [advanceSecondary, if_neg hs, lastLE_cons_of_not_le hs hall]
        rfl

theorem lastLE_dropWhile {t t' : Int} (htt : t ≤ t') :
    ∀ {sec : List RawPoint},
      sec.Pairwise (fun a b => a.time ≤ b.time) →
      ∀ {β : Type} (carry : β) (f : RawPoint → β),
      (lastLE (sec.dropWhile (fun s => decide (s.time ≤ t))) t').elim
        ((lastLE sec t).elim carry f) f = (lastLE sec t').elim carry f
  | [], _, _, carry, f => by simp [lastLE]
  | s :: rest, h, _, carry, f => by
      rcases List.pairwise_cons.mp h with ⟨hall, hrest⟩
      by_cases hs : s.time ≤ t
      · rw [List.dropWhile_cons_of_pos (by simpa using hs),
          lastLE_cons_of_le hs, lastLE_cons_of_le (le_trans hs htt),
          lastLE_dropWhile htt hrest (f s) f]
      · rw [List.dropWhile_cons_of_neg (by simpa using hs),
          lastLE_cons_of_not_le hs hall]
        rfl

theorem mergeLoop_binance (ih : ℚ) :
    ∀ {ps sec : List RawPoint} (carry : Option ℚ),
      ps.Pairwise (fun a b => a.time ≤ b.time) →
      sec.Pairwise (fun a b => a.time ≤ b.time) →
      ∀ pt ∈ mergeLoop ih ps sec carry,
        pt.binance = (lastLE sec pt.time).elim carry
          (fun s => some (s.rate / ih * 100))
  | [], _, _, _, _ => by simp [mergeLoop]
  | p :: ps, sec, carry, hps, hsec => by
      rcases List.pairwise_cons.mp hps with ⟨hall, hps'⟩
      intro pt hpt
      rw [mergeLoop] at hpt
      rcases List.mem_cons.mp hpt with rfl | hpt
      · exact advanceSecondary_snd ih p.time carry hsec
      · have hdrop := advanceSecondary_fst ih p.time sec carry
        have hcarry := advanceSecondary_snd ih p.time carry hsec
        have hsec' : (advanceSecondary ih p.time sec carry).1.Pairwise
            (fun a b => a.time ≤ b.time) := by
          rw [hdrop]; exact hsec.sublist (List.dropWhile_sublist _)
        have hih := mergeLoop_binance ih (advanceSecondary ih p.time sec carry).2
          hps' hsec' pt hpt
        have hple : p.time ≤ pt.time := by
          have hmem : pt.time ∈ (mergeLoop ih ps (advanceSecondary ih p.time sec carry).1
              (advanceSecondary ih p.time sec carry).2).map (fun q => q.time) :=
            List.mem_map_of_mem _ hpt
          rw [mergeLoop_times] at hmem
          obtain ⟨q, hq, hqe⟩ := List.mem_map.mp hmem
          exact hqe ▸ hall q hq
        rw [hih, hdrop, hcarry]
        exact lastLE_dropWhile hple hsec carry _

theorem build_of_ne_nil {h : List RawPoint} (hne : h ≠ []) (b : List RawPoint)
    (p : Option ℚ) :
    buildFundingHistoryDataset h b p =
      Except.ok (mergeLoop (intervalHoursOf p) (sortByTime h) (sortByTime b) none) := by
  have hlen : h.length ≠ 0 := fun h0 => hne (List.length_eq_zero.mp h0)
  unfold buildFundingHistoryDataset
  rw [if_neg (fun hc => hlen hc.1),
    if_neg (by rw [length_sortByTime]; exact hlen)]

theorem build_of_empty_hyper {b : List RawPoint} (hb : b ≠ []) (p : Option ℚ) :
    buildFundingHistoryDataset [] b p =
      Except.ok (sortPoints ((sortByTime b).map (fun s =>
        { time := s.time
          hyperliquid := none
          binance := some (s.rate / intervalHoursOf p * 100)
          arbitrage := none }))) := by
  have hlen : b.length ≠ 0 := fun h0 => hb (List.length_eq_zero.mp h0)
  unfold buildFundingHistoryDataset
  rw [if_neg (fun hc => hlen hc.2), if_pos (by simp [sortByTime])]

theorem elim_none_eq_map {α β : Type} (o : Option α) (g : α → β) :
    o.elim none (fun s => some (g s)) = o.map g := by
  cases o <;> rfl

theorem mergeLoop_binance_origin (ih : ℚ) (b0 : List RawPoint) :
    ∀ {ps sec : List RawPoint} {carry : Option ℚ},
      (∀ v, carry = some v → ∃ s ∈ b0, v = s.rate / ih * 100) →
      (∀ s ∈ sec, s ∈ b0) →
      ∀ pt ∈ mergeLoop ih ps sec carry, ∀ v, pt.binance = some v →
        ∃ s ∈ b0, v = s.rate / ih * 100
  | [], _, _, _, _ => by simp [mergeLoop]
  | p :: ps, sec, carry, hcarry, hsec => by
      intro pt hpt v hv
      rw [mergeLoop] at hpt
      have hcarry' : ∀ v, (advanceSecondary ih p.time sec carry).2 = some v →
          ∃ s ∈ b0, v = s.rate / ih * 100 := by
        intro w hw
        rcases advanceSecondary_snd_origin hw with hc | ⟨s, hs, rfl⟩
        · exact hcarry w hc
        · exact ⟨s, hsec s hs, rfl⟩
      have hsec' : ∀ s ∈ (advanceSecondary ih p.time sec carry).1, s ∈ b0 := by
        intro s hs
        apply hsec
        rw [advanceSecondary_fst] at hs
        exact (List.dropWhile_sublist _).subset hs
      rcases List.mem_cons.mp hpt with rfl | hpt
      · exact hcarry' v hv
      · exact mergeLoop_binance_origin ih b0 hcarry' hsec' pt hpt v hv

theorem sortPoints_of_sorted {l : List FundingHistoryPoint}
    (h : l.Pairwise (fun a b => a.time ≤ b.time)) : sortPoints l = l :=
  List.mergeSort_of_sorted (h.imp (fun hab => by simpa [pointTimeLe] using hab))

end Lemmas

section Claims

/-- C1: for sorted raw inputs, every aligned point on the primary backbone
carries as its secondary value the hourly-normalized rate of the most recent
secondary sample whose time is `<=` the point's time (`none` when there is no
such sample), so no secondary sample with a later timestamp is ever used for
that point: forward-fill with no look-ahead. -/
theorem c1_forward_fill_no_lookahead
    (h b : List RawPoint) (p : Option ℚ) (l : List FundingHistoryPoint)
    (hh : h.Pairwise (fun x y => x.time ≤ y.time))
    (hb : b.Pairwise (fun x y => x.time ≤ y.time))
    (hne : h ≠ [])
    (hok : buildFundingHistoryDataset h b p = Except.ok l) :
    ∀ pt ∈ l, pt.binance =
      (lastLE b pt.time).map (fun s => s.rate / intervalHoursOf p * 100) := by
  rw [build_of_ne_nil hne b p, sortByTime_of_sorted hh, sortByTime_of_sorted hb]
    at hok
  have hl : mergeLoop (intervalHoursOf p) h b none = l := by
    injection hok
  intro pt hpt
  rw [← elim_none_eq_map]
  exact mergeLoop_binance (intervalHoursOf p) none hh hb pt (hl ▸ hpt)

/-- Witness for C1 at the spec's §8 scenario: primary
`[(0, 0.0001914), (3600000, 0.0002)]`, secondary `[(0, 0.0008)]`, period 8;
the second aligned point forward-fills the secondary sample at time 0. -/
theorem c1_forward_fill_no_lookahead_witness :
    (⟨3600000, some (1/50), some (1/100), some (1/100 - 1/50)⟩ :
        FundingHistoryPoint).binance =
      (lastLE [⟨0, 8/10000⟩] 3600000).map
        (fun s => s.rate / intervalHoursOf (some 8) * 100) :=
  c1_forward_fill_no_lookahead
    [⟨0, 1914/10000000⟩, ⟨3600000, 2/10000⟩] [⟨0, 8/10000⟩] (some 8)
    [⟨0, some (1914/100000), some (1/100), some (1/100 - 1914/100000)⟩,
      ⟨3600000, some (1/50), some (1/100), some (1/100 - 1/50)⟩]
    (by decide) (by decide) (by decide)
    (by rw [build_of_ne_nil (by decide) [⟨0, 8/10000⟩] (some 8),
          sortByTime_of_sorted (by decide), sortByTime_of_sorted (by decide)]
        simp [mergeLoop, advanceSecondary, intervalHoursOf,
          DEFAULT_BINANCE_FUNDING_PERIOD_HOURS]
        norm_num)
    ⟨3600000, some (1/50), some (1/100), some (1/100 - 1/50)⟩
    (by simp)

/-- C2 counterexample: two primary samples in the same hour bucket yield two
aligned points with the same timestamp; the output is not strictly increasing
and the earlier duplicate is kept, not collapsed to the last occurrence. -/
theorem c2_counterexample :
    buildFundingHistoryDataset [⟨0, 1⟩, ⟨0, 2⟩] [] none =
      Except.ok [⟨0, some 100, none, none⟩, ⟨0, some 200, none, none⟩] ∧
    ¬ strictlyIncreasingTimes
        [⟨0, some 100, none, none⟩, ⟨0, some 200, none, none⟩] := by
  constructor
  · rw [build_of_ne_nil (by decide) [] none,
      sortByTime_of_sorted (by decide), sortByTime_of_sorted (by decide)]
    simp [mergeLoop, advanceSecondary]
    norm_num
  · decide

/-- C2 amended: the api-route aligner emits one point per primary sample and
never merges duplicates, so the output's time sequence is strictly increasing
exactly when the non-empty primary series' hour-bucketed timestamps are
strictly increasing; the output times are the primary times, duplicates
preserved rather than collapsed to the last occurrence. -/
theorem c2_amended_strictly_increasing
    (h b : List RawPoint) (p : Option ℚ)
    (hh : h.Pairwise (fun x y => x.time < y.time)) (hne : h ≠ []) :
    ∃ l, buildFundingHistoryDataset h b p = Except.ok l ∧
      strictlyIncreasingTimes l ∧
      l.map (fun pt => pt.time) = h.map (fun s => s.time) := by
  have hsort : sortByTime h = h := sortByTime_of_sorted (hh.imp le_of_lt)
  have hts := mergeLoop_times (intervalHoursOf p) h (sortByTime b) none
  refine ⟨_, build_of_ne_nil hne b p, ?_, ?_⟩
  · rw [hsort]
    unfold strictlyIncreasingTimes
    have hmap : ((mergeLoop (intervalHoursOf p) h (sortByTime b) none).map
        (fun pt => pt.time)).Pairwise (· < ·) := by
      rw [hts]
      exact List.pairwise_map.mpr hh
    exact List.pairwise_map.mp hmap
  · rw [hsort, hts]

/-- Witness for the C2 amended theorem on a strictly increasing primary. -/
theorem c2_amended_strictly_increasing_witness :
    ∃ l, buildFundingHistoryDataset [⟨0, 1⟩, ⟨3600000, 2⟩] [] none =
        Except.ok l ∧
      strictlyIncreasingTimes l ∧
      l.map (fun pt => pt.time) =
        ([⟨0, 1⟩, ⟨3600000, 2⟩] : List RawPoint).map (fun s => s.time) :=
  c2_amended_strictly_increasing [⟨0, 1⟩, ⟨3600000, 2⟩] [] none
    (by decide) (by decide)

/-- C3: the aligner fails (with the no-data error) exactly when both input
series are empty; when at least one series has a sample it returns a
non-empty dataset. -/
theorem c3_nodata_error_iff (h b : List RawPoint) (p : Option ℚ) :
    (buildFundingHistoryDataset h b p =
        Except.error "暂无可用的资金费率历史数据" ↔ h = [] ∧ b = []) ∧
    (¬ (h = [] ∧ b = []) →
      ∃ l, buildFundingHistoryDataset h b p = Except.ok l ∧ l ≠ []) := by
  by_cases hh : h = []
  · by_cases hb : b = []
    · subst hh; subst hb
      constructor
      · simp [buildFundingHistoryDataset]
      · intro hc; exact absurd ⟨rfl, rfl⟩ hc
    · subst hh
      have hbuild := build_of_empty_hyper hb p
      constructor
      · rw [hbuild]
        simp [hb]
      · intro _
        refine ⟨_, hbuild, ?_⟩
        intro hnil
        have := congrArg List.length hnil
        simp [sortPoints, length_sortByTime] at this
        exact hb this
  · have hbuild := build_of_ne_nil hh b p
    constructor
    · rw [hbuild]
      simp [hh]
    · intro _
      refine ⟨_, hbuild, ?_⟩
      intro hnil
      have := congrArg (List.map (fun pt => pt.time)) hnil
      rw [mergeLoop_times] at this
      have hlen := congrArg List.length this
      simp [length_sortByTime] at hlen
      exact hh hlen

/-- Witness for C3: both empty fails; one valid sample succeeds non-empty. -/
theorem c3_nodata_error_iff_witness :
    buildFundingHistoryDataset [] [] none =
      Except.error "暂无可用的资金费率历史数据" ∧
    ∃ l, buildFundingHistoryDataset [⟨0, 1⟩] [] none = Except.ok l ∧ l ≠ [] :=
  ⟨(c3_nodata_error_iff [] [] none).1.mpr ⟨rfl, rfl⟩,
    (c3_nodata_error_iff [⟨0, 1⟩] [] none).2 (by simp)⟩

/-- C4 counterexample: with an empty primary, two secondary samples in the
same hour bucket each produce their own aligned point, so the output has two
points with the same timestamp — not exactly one point per secondary
timestamp. -/
theorem c4_counterexample :
    buildFundingHistoryDataset [] [⟨0, 8/10000⟩, ⟨0, 16/10000⟩] (some 8) =
      Except.ok [⟨0, none, some (1/100), none⟩, ⟨0, none, some (1/50), none⟩] ∧
    ¬ strictlyIncreasingTimes
        [⟨0, none, some (1/100), none⟩, ⟨0, none, some (1/50), none⟩] := by
  constructor
  · rw [build_of_empty_hyper (by decide) (some 8),
      sortByTime_of_sorted (by decide), sortPoints_of_sorted (by decide)]
    simp [intervalHoursOf, DEFAULT_BINANCE_FUNDING_PERIOD_HOURS]
    norm_num
  · decide

/-- C4 amended: with an empty primary and non-empty secondary the aligner
emits exactly one point per secondary sample (output times are the secondary
sample times counted with multiplicity, duplicate hour buckets preserved),
each with `primary = null`, `spread = null`, and the hourly-normalized
secondary rate. -/
theorem c4_empty_primary_backbone (b : List RawPoint) (p : Option ℚ)
    (hb : b ≠ []) :
    ∃ l, buildFundingHistoryDataset [] b p = Except.ok l ∧
      (l.map (fun pt => pt.time)).Perm (b.map (fun s => s.time)) ∧
      ∀ pt ∈ l, pt.hyperliquid = none ∧ pt.arbitrage = none ∧
        ∃ s ∈ b, pt.time = s.time ∧
          pt.binance = some (s.rate / intervalHoursOf p * 100) := by
  refine ⟨_, build_of_empty_hyper hb p, ?_, ?_⟩
  · have h1 : (sortPoints ((sortByTime b).map (fun s =>
        ({ time := s.time, hyperliquid := none,
           binance := some (s.rate / intervalHoursOf p * 100),
           arbitrage := none } : FundingHistoryPoint)))).Perm
        ((sortByTime b).map (fun s =>
        ({ time := s.time, hyperliquid := none,
           binance := some (s.rate / intervalHoursOf p * 100),
           arbitrage := none } : FundingHistoryPoint))) :=
      List.mergeSort_perm _ _
    have h2 := h1.map (fun pt => pt.time)
    rw [List.map_map] at h2
    have h3 := (List.mergeSort_perm b timeLe).map (fun s => s.time)
    exact h2.trans h3
  · intro pt hpt
    have hpt' := List.mem_mergeSort.mp hpt
    obtain ⟨s, hs, rfl⟩ := List.mem_map.mp hpt'
    exact ⟨rfl, rfl, s, mem_sortByTime.mp hs, rfl, rfl⟩

/-- Witness for C4 at the spec's §8 scenario. -/
theorem c4_empty_primary_backbone_witness :
    ∃ l, buildFundingHistoryDataset [] [⟨0, 8/10000⟩] (some 8) =
        Except.ok l ∧
      (l.map (fun pt => pt.time)).Perm
        (([⟨0, 8/10000⟩] : List RawPoint).map (fun s => s.time)) ∧
      ∀ pt ∈ l, pt.hyperliquid = none ∧ pt.arbitrage = none ∧
        ∃ s ∈ ([⟨0, 8/10000⟩] : List RawPoint), pt.time = s.time ∧
          pt.binance = some (s.rate / intervalHoursOf (some 8) * 100) :=
  c4_empty_primary_backbone [⟨0, 8/10000⟩] (some 8) (by simp)

/-- C5 counterexample: a non-positive `secondaryPeriodHours` is clamped to 1,
not replaced by the fallback 8, so the call with 0 differs from the call
with 8. -/
theorem c5_counterexample :
    buildFundingHistoryDataset [⟨0, 1⟩] [⟨0, 8/100⟩] (some 0) ≠
      buildFundingHistoryDataset [⟨0, 1⟩] [⟨0, 8/100⟩] (some 8) := by
  rw [build_of_ne_nil (by decide) [⟨0, 8/100⟩] (some 0),
    build_of_ne_nil (by decide) [⟨0, 8/100⟩] (some 8),
    sortByTime_of_sorted (by decide), sortByTime_of_sorted (by decide)]
  simp [mergeLoop, advanceSecondary, intervalHoursOf,
    DEFAULT_BINANCE_FUNDING_PERIOD_HOURS]
  norm_num

/-- C5 amended: an absent (`null`) `secondaryPeriodHours` behaves exactly like
the fixed fallback 8, while a non-positive numeric value is clamped to 1 and
so behaves exactly like `secondaryPeriodHours = 1`. -/
theorem c5_amended_fallback (h b : List RawPoint) :
    buildFundingHistoryDataset h b none =
      buildFundingHistoryDataset h b (some 8) ∧
    ∀ p : ℚ, p ≤ 0 →
      buildFundingHistoryDataset h b (some p) =
        buildFundingHistoryDataset h b (some 1) := by
  constructor
  · rfl
  · intro p hp
    have hiv : intervalHoursOf (some p) = intervalHoursOf (some 1) := by
      unfold intervalHoursOf
      simp [Option.getD]
      exact hp.trans zero_le_one
    unfold buildFundingHistoryDataset
    rw [hiv]

/-- Witness for C5 amended at `secondaryPeriodHours = -3`. -/
theorem c5_amended_fallback_witness :
    buildFundingHistoryDataset [⟨0, 1⟩] [⟨0, 8/100⟩] none =
      buildFundingHistoryDataset [⟨0, 1⟩] [⟨0, 8/100⟩] (some 8) ∧
    buildFundingHistoryDataset [⟨0, 1⟩] [⟨0, 8/100⟩] (some (-3)) =
      buildFundingHistoryDataset [⟨0, 1⟩] [⟨0, 8/100⟩] (some 1) :=
  ⟨(c5_amended_fallback [⟨0, 1⟩] [⟨0, 8/100⟩]).1,
    (c5_amended_fallback [⟨0, 1⟩] [⟨0, 8/100⟩]).2 (-3) (by norm_num)⟩

/-- C6: for every aligned point, the spread is `secondary - primary` exactly
when both values are non-null, and null otherwise. -/
theorem c6_spread_definition (h b : List RawPoint) (p : Option ℚ)
    (l : List FundingHistoryPoint)
    (hok : buildFundingHistoryDataset h b p = Except.ok l) :
    ∀ pt ∈ l,
      (∀ x y, pt.hyperliquid = some x → pt.binance = some y →
        pt.arbitrage = some (y - x)) ∧
      ((pt.hyperliquid = none ∨ pt.binance = none) → pt.arbitrage = none) := by
  intro pt hpt
  by_cases hh : h = []
  · subst hh
    by_cases hb : b = []
    · subst hb
      simp [buildFundingHistoryDataset] at hok
    · rw [build_of_empty_hyper hb p] at hok
      have hl := Except.ok.inj hok
      rw [← hl] at hpt
      obtain ⟨s, _, rfl⟩ := List.mem_map.mp (List.mem_mergeSort.mp hpt)
      exact ⟨fun x y hx => by simp at hx, fun _ => rfl⟩
  · rw [build_of_ne_nil hh b p] at hok
    have hl := Except.ok.inj hok
    rw [← hl] at hpt
    obtain ⟨s, _, _, hhv, harb⟩ := mergeLoop_shape hpt
    constructor
    · intro x y hx hy
      rw [hhv] at hx
      have hx' : s.rate * 100 = x := Option.some_inj.mp hx
      rw [harb, hy, Option.map_some', hx']
    · intro hnone
      rcases hnone with hx | hy
      · rw [hhv] at hx; exact absurd hx (by simp)
      · rw [harb, hy]; rfl

/-- Witness for C6 on a two-point primary with one secondary sample. -/
theorem c6_spread_definition_witness :
    (∀ x y, (⟨0, some 100, some 1, some (1 - 100)⟩ :
        FundingHistoryPoint).hyperliquid = some x →
      (⟨0, some 100, some 1, some (1 - 100)⟩ :
        FundingHistoryPoint).binance = some y →
      (⟨0, some 100, some 1, some (1 - 100)⟩ :
        FundingHistoryPoint).arbitrage = some (y - x)) ∧
    (((⟨0, some 100, some 1, some (1 - 100)⟩ :
        FundingHistoryPoint).hyperliquid = none ∨
      (⟨0, some 100, some 1, some (1 - 100)⟩ :
        FundingHistoryPoint).binance = none) →
      (⟨0, some 100, some 1, some (1 - 100)⟩ :
        FundingHistoryPoint).arbitrage = none) :=
  c6_spread_definition [⟨0, 1⟩] [⟨0, 8/100⟩] (some 8)
    [⟨0, some 100, some 1, some (1 - 100)⟩]
    (by rw [build_of_ne_nil (by decide) [⟨0, 8/100⟩] (some 8),
          sortByTime_of_sorted (by decide), sortByTime_of_sorted (by decide)]
        simp [mergeLoop, advanceSecondary, intervalHoursOf,
          DEFAULT_BINANCE_FUNDING_PERIOD_HOURS]
        norm_num)
    ⟨0, some 100, some 1, some (1 - 100)⟩ (by simp)

/-- C7: with a positive supplied period, every non-null primary value is the
raw primary rate times 100, and every non-null secondary value is a carried
raw secondary rate divided by `max(secondaryPeriodHours, 1)` times 100. -/
theorem c7_numeric_normalization (h b : List RawPoint) (p : ℚ)
    (l : List FundingHistoryPoint) (hp : 0 < p)
    (hok : buildFundingHistoryDataset h b (some p) = Except.ok l) :
    ∀ pt ∈ l,
      (∀ v, pt.hyperliquid = some v → ∃ s ∈ h, pt.time = s.time ∧
        v = s.rate * 100) ∧
      (∀ v, pt.binance = some v → ∃ s ∈ b, v = s.rate / max p 1 * 100) := by
  have hiv : intervalHoursOf (some p) = max p 1 := rfl
  intro pt hpt
  by_cases hh : h = []
  · subst hh
    by_cases hb : b = []
    · subst hb
      simp [buildFundingHistoryDataset] at hok
    · rw [build_of_empty_hyper hb (some p)] at hok
      have hl := Except.ok.inj hok
      rw [← hl] at hpt
      obtain ⟨s, hs, rfl⟩ := List.mem_map.mp (List.mem_mergeSort.mp hpt)
      constructor
      · intro v hv; simp at hv
      · intro v hv
        refine ⟨s, mem_sortByTime.mp hs, ?_⟩
        rw [← hiv]
        exact (Option.some_inj.mp hv).symm
  · rw [build_of_ne_nil hh b (some p)] at hok
    have hl := Except.ok.inj hok
    rw [← hl] at hpt
    constructor
    · intro v hv
      obtain ⟨s, hs, hts, hhv, _⟩ := mergeLoop_shape hpt
      refine ⟨s, mem_sortByTime.mp hs, hts, ?_⟩
      rw [hhv] at hv
      exact (Option.some_inj.mp hv).symm
    · intro v hv
      have := mergeLoop_binance_origin (intervalHoursOf (some p))
        b (by intro w hw; simp at hw)
        (fun s hs => mem_sortByTime.mp hs) pt hpt v hv
      rw [hiv] at this
      exact this

/-- Witness for C7 with period 8 at the spec's §8 scenario values. -/
theorem c7_numeric_normalization_witness :
    (∀ v, (⟨0, some 100, some 1, some (1 - 100)⟩ :
        FundingHistoryPoint).hyperliquid = some v →
      ∃ s ∈ ([⟨0, 1⟩] : List RawPoint),
        (⟨0, some 100, some 1, some (1 - 100)⟩ :
          FundingHistoryPoint).time = s.time ∧ v = s.rate * 100) ∧
    (∀ v, (⟨0, some 100, some 1, some (1 - 100)⟩ :
        FundingHistoryPoint).binance = some v →
      ∃ s ∈ ([⟨0, 8/100⟩] : List RawPoint),
        v = s.rate / max (8 : ℚ) 1 * 100) :=
  c7_numeric_normalization [⟨0, 1⟩] [⟨0, 8/100⟩] 8
    [⟨0, some 100, some 1, some (1 - 100)⟩]
    (by norm_num)
    (by rw [build_of_ne_nil (by decide) [⟨0, 8/100⟩] (some 8),
          sortByTime_of_sorted (by decide), sortByTime_of_sorted (by decide)]
        simp [mergeLoop, advanceSecondary, intervalHoursOf,
          DEFAULT_BINANCE_FUNDING_PERIOD_HOURS]
        norm_num)
    ⟨0, some 100, some 1, some (1 - 100)⟩ (by simp)

/-- C9: the fetch window's start time equals
`max(now - max(days, 1) * 24h, now - 500h)`, so at most 500 hours of history
is requested however large `days` is. -/
theorem c9_lookback_cap (now days : ℚ) :
    computeStartTime now days =
      max (now - max days 1 * 24 * (MS_PER_HOUR : ℚ))
        (now - 500 * (MS_PER_HOUR : ℚ)) ∧
    now - computeStartTime now days ≤ 500 * (MS_PER_HOUR : ℚ) := by
  have hcast : ((MAX_HYPER_LOOKBACK_MS : Int) : ℚ) = 500 * (MS_PER_HOUR : ℚ) := by
    unfold MAX_HYPER_LOOKBACK_MS MAX_HYPER_FUNDING_POINTS
    push_cast
    ring
  constructor
  · unfold computeStartTime
    rw [hcast]
  · have hle : now - 500 * (MS_PER_HOUR : ℚ) ≤ computeStartTime now days := by
      unfold computeStartTime
      rw [hcast]
      exact le_max_right _ _
    linarith

/-- C10: a request whose body is not valid JSON gets a 400 with
`Invalid JSON payload`; a payload without a non-empty string `symbol` gets a
400 with `Symbol is required` — in both cases no dataset is built, whatever
the venues would have returned. -/
theorem c10_post_validation (hf bf : List RawPoint) :
    handlePOST none hf bf =
      { status := 400, error := some "Invalid JSON payload", dataset := none } ∧
    ∀ pl : Payload, (pl.symbol = none ∨ pl.symbol = some "") →
      handlePOST (some pl) hf bf =
        { status := 400, error := some "Symbol is required", dataset := none } := by
  refine ⟨rfl, ?_⟩
  intro pl hpl
  rcases hpl with hs | hs <;> simp [handlePOST, hs]

/-- Witness for C10: invalid JSON and a missing symbol on a concrete request. -/
theorem c10_post_validation_witness :
    handlePOST none [] [] =
      { status := 400, error := some "Invalid JSON payload", dataset := none } ∧
    handlePOST (some ⟨none, none, none, none⟩) [] [] =
      { status := 400, error := some "Symbol is required", dataset := none } :=
  ⟨(c10_post_validation [] []).1,
    (c10_post_validation [] []).2 ⟨none, none, none, none⟩ (Or.inl rfl)⟩

/-- C8: the viewport clamping primitive is idempotent — applying `setDomain`
to its own output returns that same output, for every pair of raw endpoints
over any `TimeBounds` and `MinWindow`. -/
theorem c8_setDomain_idempotent (minB maxB minW a b : ℚ) :
    setDomain minB maxB minW (setDomain minB maxB minW a b).1
      (setDomain minB maxB minW a b).2 = setDomain minB maxB minW a b := by
  simp only [setDomain]
  by_cases h1 : maxB - minB ≤ max (max a b - min a b) (min minW (maxB - minB))
  · rw [if_pos h1]
    simp only
    have h2 : maxB - minB ≤
        max (max minB maxB - min minB maxB) (min minW (maxB - minB)) := by
      rcases le_total minB maxB with h | h
      · rw [max_eq_right h, min_eq_left h]
        exact le_max_left _ _
      · have hneg : maxB - minB ≤ 0 := by linarith
        have h0 : (0:ℚ) ≤ max minB maxB - min minB maxB :=
          sub_nonneg.mpr min_le_max
        exact le_trans hneg (le_trans h0 (le_max_left _ _))
    rw [if_pos h2]
  · rw [if_neg h1]
    simp only
    push_neg at h1
    set R := max (max a b - min a b) (min minW (maxB - minB)) with hR
    have hR0 : 0 ≤ R := le_trans (by simp) (le_max_left (max a b - min a b) _)
    set s := if maxB < min a b + R then maxB - R
      else if min a b < minB then minB else min a b with hs
    have hmin : min s (s + R) = s := min_eq_left (by linarith)
    have hmax : max s (s + R) = s + R := max_eq_right (by linarith)
    have hspan : max (s + R - s) (min minW (maxB - minB)) = R := by
      have hcancel : s + R - s = R := by ring
      rw [hcancel]
      exact max_eq_left (le_max_right _ _)
    rw [hmin, hmax, hspan, if_neg (not_le.mpr h1)]
    have hsin : ¬ maxB < s + R ∧ ¬ s < minB := by
      by_cases c1 : maxB < min a b + R
      · rw [hs, if_pos c1]
        constructor <;> [linarith; linarith]
      · rw [hs, if_neg c1]
        by_cases c2 : min a b < minB
        · rw [if_pos c2]
          constructor <;> [linarith; linarith]
        · rw [if_neg c2]
          push_neg at c1 c2
          constructor <;> [linarith; linarith]
    rw [if_neg hsin.1, if_neg hsin.2]

end Claims

end FundingArb
